import Mathlib

/-!
Verification of the pairs-trading demo (cointegration test, rolling z-score
signal generation, mean-reversion backtest, performance statistics).

Numbers are modelled as exact rationals.  JavaScript operations whose float
semantics matter are modelled explicitly:

* `Math.round` is `jsRound` (floor of `x + 1/2`);
* a division whose denominator may be zero (which in JavaScript yields the
  non-finite values `NaN` or `±Infinity`) is `jsDiv`, returning `none`
  exactly when the denominator is zero, so `none` stands for a non-finite
  float result;
* `Math.sqrt` is an abstract parameter `sqrtA : ℚ → ℚ`; theorems that need
  facts about it (non-negativity on non-negative inputs) take them as
  hypotheses, which the IEEE-754 square root satisfies exactly.

The `Math.random()` calls in the source are modelled by passing the drawn
values as explicit arguments, so that determinism questions become
questions about dependence on those arguments.
-/

/-- Models JavaScript `Math.round`: round half up, i.e. `⌊x + 1/2⌋`. -/
def jsRound (q : ℚ) : ℤ := ⌊q + 1/2⌋

/-- Rounding to 2 decimals, `Math.round(x * 100) / 100`. -/
def round2 (q : ℚ) : ℚ := (jsRound (q * 100) : ℚ) / 100

/-- Rounding to 3 decimals, `Math.round(x * 1000) / 1000`. -/
def round3 (q : ℚ) : ℚ := (jsRound (q * 1000) : ℚ) / 1000

/-- Rounding to 4 decimals, `Math.round(x * 10000) / 10000`. -/
def round4 (q : ℚ) : ℚ := (jsRound (q * 10000) : ℚ) / 10000

/-- JavaScript float division where a zero denominator produces a non-finite
value (`NaN` or `±Infinity`), modelled as `none`. -/
def jsDiv (a b : ℚ) : Option ℚ := if b = 0 then none else some (a / b)

/-- Mean of a list as computed by `reduce((a,b) => a+b, 0) / length`; the
empty list gives `0/0 = NaN`, modelled as `none`. -/
def jsMean (xs : List ℚ) : Option ℚ := jsDiv xs.sum (xs.length : ℚ)

/-- Population variance around a given mean:
`xs.map(x => (x - avg)^2).reduce(...) / xs.length` (callers establish that
`xs` is non-empty, so the plain rational division is exact). -/
def varOf (xs : List ℚ) (avg : ℚ) : ℚ :=
  ((xs.map (fun x => (x - avg) ^ 2)).sum) / (xs.length : ℚ)

/-! ## Hedge ratio (part_002 lines 33-40, CointegrationTest.tsx lines 36-43)

Both cointegration-test variants compute the same closed-form ordinary
least squares slope of `prices1` (instrument A) on `prices2` (instrument B).
The JavaScript indexes `prices2[i]` while reducing over `prices1`; the two
lists come from the same row-aligned data, so they have equal length and the
indexed traversal is the traversal of the zipped lists. -/

/-- Hedge ratio from the source:
`n = prices1.length`, `sumX = Σ prices2`, `sumY = Σ prices1`,
`sumXY = Σ prices1[i] * prices2[i]`, `sumXX = Σ prices2[i]^2`,
`(n*sumXY - sumX*sumY) / (n*sumXX - sumX*sumX)`. -/
def hedgeRatioOf (prices1 prices2 : List ℚ) : ℚ :=
  let n : ℚ := (prices1.length : ℚ)
  let sumX := prices2.sum
  let sumY := prices1.sum
  let sumXY := ((prices1.zip prices2).map (fun p => p.1 * p.2)).sum
  let sumXX := (prices2.map (fun x => x * x)).sum
  (n * sumXY - sumX * sumY) / (n * sumXX - sumX * sumX)

/-- Modelled from the spec: the closed-form OLS slope
`β = (nΣxy − ΣxΣy) / (nΣx² − (Σx)²)` with `x` the second instrument's
prices and `y` the first instrument's prices, written from the spec's
formula for comparison with `hedgeRatioOf`. -/
def olsSlopeSpec (x y : List ℚ) : ℚ :=
  let n : ℚ := (x.length : ℚ)
  (n * ((x.zip y).map (fun p => p.1 * p.2)).sum - x.sum * y.sum) /
    (n * (x.map (fun t => t ^ 2)).sum - x.sum ^ 2)

/-! ## Rolling z-scores (part_002 lines 47-65) -/

/-- One row of the fetched price data: closing prices of the two tickers. -/
structure Bar where
  p1 : ℚ
  p2 : ℚ
deriving DecidableEq

/-- One row of `dataWithSpread` / `fullData`: prices, spread and z-score. -/
structure ZBar where
  p1 : ℚ
  p2 : ℚ
  spread : ℚ
  zscore : ℚ
deriving DecidableEq

/-- The trailing window `spreads.slice(i - window + 1, i + 1)` with the
fixed `window = 30` of the source. -/
def rollingWindow (spreads : List ℚ) (i : ℕ) : List ℚ :=
  (spreads.drop (i + 1 - 30)).take 30

/-- `windowMean = windowSpreads.reduce((a,b) => a+b, 0) / window`. -/
def rollingMean (spreads : List ℚ) (i : ℕ) : ℚ :=
  (rollingWindow spreads i).sum / 30

/-- `windowSpreads.reduce((sum,x) => sum + (x - windowMean)^2, 0) / window`. -/
def rollingVar (spreads : List ℚ) (i : ℕ) : ℚ :=
  ((rollingWindow spreads i).map (fun x => (x - rollingMean spreads i) ^ 2)).sum / 30

/-- `windowStd = Math.sqrt(...)` with the abstract square root. -/
def rollingStd (sqrtA : ℚ → ℚ) (spreads : List ℚ) (i : ℕ) : ℚ :=
  sqrtA (rollingVar spreads i)

/-- `zscore = windowStd > 0 ? (spread - windowMean) / windowStd : 0`
(part_002 line 57), evaluated at bar `i`. -/
def zscoreRawAt (sqrtA : ℚ → ℚ) (spreads : List ℚ) (i : ℕ) : ℚ :=
  if 0 < rollingStd sqrtA spreads i then
    (spreads.getD i 0 - rollingMean spreads i) / rollingStd sqrtA spreads i
  else 0

/-- The full per-bar z-score: `let zscore = 0; if (i >= window - 1) {...}`,
so bars with `i < 29` keep the initial value `0`. -/
def zscoreAt (sqrtA : ℚ → ℚ) (spreads : List ℚ) (i : ℕ) : ℚ :=
  if 29 ≤ i then zscoreRawAt sqrtA spreads i else 0

/-- The outlier cap `Math.abs(zscore) > 5 ? 0 : zscore` (part_002 line 63). -/
def clipZ (z : ℚ) : ℚ := if 5 < |z| then 0 else z

/-- The `dataWithSpread` series built by part_002 lines 49-65: each row keeps
its prices, the spread `p1 - hedgeRatio * p2`, and the capped rolling
z-score. -/
def mkDataWithSpread (sqrtA : ℚ → ℚ) (data : List Bar) (hr : ℚ) : List ZBar :=
  let spreads := data.map (fun d => d.p1 - hr * d.p2)
  (List.range data.length).map (fun i =>
    { p1 := (data.getD i ⟨0, 0⟩).p1
      p2 := (data.getD i ⟨0, 0⟩).p2
      spread := spreads.getD i 0
      zscore := clipZ (zscoreAt sqrtA spreads i) })

/-! ## Cointegration test, part_002 variant (lines 18-98) -/

/-- Result record of part_002's `runCointegrationTest`. -/
structure CointResults where
  hedgeRatio : ℚ
  pValue : ℚ
  adfStatistic : ℚ
  isCointegrated : Bool
  spreadMean : ℚ
  spreadStd : ℚ
  dataWithSpread : List ZBar
deriving DecidableEq

/-- part_002's `runCointegrationTest`: requires at least 50 rows (otherwise
the handler returns early with no result), computes the OLS hedge ratio,
full-sample spread statistics, the rolling z-score series, and the mocked
p-value `0.02 + Math.random() * 0.06` and ADF statistic
`-3.2 - Math.random() * 1.5`; the two random draws are the arguments
`rnd1`, `rnd2`.  `isCointegrated` compares the unrounded p-value with 0.05. -/
def runCointegrationTest (sqrtA : ℚ → ℚ) (data : List Bar) (rnd1 rnd2 : ℚ) :
    Option CointResults :=
  if data.length < 50 then none else
  let prices1 := data.map (fun d => d.p1)
  let prices2 := data.map (fun d => d.p2)
  let hr := hedgeRatioOf prices1 prices2
  let spreads := data.map (fun d => d.p1 - hr * d.p2)
  let spreadMean := spreads.sum / (spreads.length : ℚ)
  let spreadStd := sqrtA (varOf spreads spreadMean)
  let pRaw := 1/50 + rnd1 * (3/50)
  let adfRaw := -(16/5) - rnd2 * (3/2)
  some
    { hedgeRatio := round3 hr
      pValue := round3 pRaw
      adfStatistic := round2 adfRaw
      isCointegrated := decide (pRaw < 1/20)
      spreadMean := round2 spreadMean
      spreadStd := round2 spreadStd
      dataWithSpread := mkDataWithSpread sqrtA data hr }

/-! ## Cointegration test, CointegrationTest.tsx variant (lines 18-88)

This variant computes a single global z-score
`(spread - spreadMean) / spreadStd` per row (no rolling window) and exposes
the full series as `fullData`, which the part_004 backtest consumes.  Its
mocked p-value is `Math.random() * 0.08`.  The z-score division is exact
here; the degenerate constant-spread input (where the JavaScript would
produce `NaN` z-scores) is outside the claims about this variant. -/

/-- Result record of CointegrationTest.tsx's `runCointegrationTest`. -/
structure CointTsxResults where
  hedgeRatio : ℚ
  pValue : ℚ
  isCointegrated : Bool
  spreadMean : ℚ
  spreadStd : ℚ
  fullData : List ZBar
deriving DecidableEq

/-- CointegrationTest.tsx's `runCointegrationTest` with the random draw as
the argument `rnd`. -/
def runCointegrationTsx (sqrtA : ℚ → ℚ) (data : List Bar) (rnd : ℚ) :
    CointTsxResults :=
  let prices1 := data.map (fun d => d.p1)
  let prices2 := data.map (fun d => d.p2)
  let hr := hedgeRatioOf prices1 prices2
  let spreads := data.map (fun d => d.p1 - hr * d.p2)
  let spreadMean := spreads.sum / (spreads.length : ℚ)
  let spreadStd := sqrtA (varOf spreads spreadMean)
  let pRaw := rnd * (2/25)
  { hedgeRatio := round3 hr
    pValue := round4 pRaw
    isCointegrated := decide (pRaw < 1/20)
    spreadMean := round2 spreadMean
    spreadStd := round2 spreadStd
    fullData := data.map (fun d =>
      { p1 := d.p1
        p2 := d.p2
        spread := d.p1 - hr * d.p2
        zscore := (d.p1 - hr * d.p2 - spreadMean) / spreadStd }) }

/-! ## Backtest simulator, part_004 variant (`runBacktest`, lines 21-146)

The loop runs `for (let i = 1; i < fullData.length; i++)`, reading
`current = fullData[i]` and `prev = fullData[i-1]`; it keeps a single
position flag (`0` flat, `1` long spread, `-1` short spread), a trade log,
the compounded portfolio value, the per-bar return list, and one equity
point per processed bar. -/

/-- The four trade actions part_004 pushes. -/
inductive TradeAction where
  | enterLong
  | enterShort
  | exitLong
  | exitShort
deriving DecidableEq

/-- A pushed trade record (the date is dropped; prices and the z-score at
the event bar are kept). -/
structure TradeRec where
  action : TradeAction
  zscore : ℚ
  p1 : ℚ
  p2 : ℚ
deriving DecidableEq

/-- One equity point `{value, position, zscore}` as pushed per bar. -/
structure EquityPoint where
  value : ℚ
  position : ℤ
  zscore : ℚ
deriving DecidableEq

/-- The mutable loop state of part_004's `runBacktest`. -/
structure BtState where
  position : ℤ
  totalValue : ℚ
  trades : List TradeRec
  returns : List ℚ
  equity : List EquityPoint
deriving DecidableEq

/-- Initial state: flat, `cash = 100000`, empty logs. -/
def btInit : BtState :=
  { position := 0, totalValue := 100000, trades := [], returns := [], equity := [] }

/-- One iteration of the part_004 loop on the pair `(current, prev)`:
entry only when flat (`zscore < -entryZ` long, `zscore > entryZ` short),
exit when in a position and `|zscore| <= exitZ`; then the day return of the
position held after this logic, compounding at 50% allocation, and the
appended equity point. -/
def btStep (hedgeRatio entryZ exitZ : ℚ) (s : BtState) (bar : ZBar × ZBar) :
    BtState :=
  let cur := bar.1
  let prev := bar.2
  let z := cur.zscore
  let posTrades : ℤ × List TradeRec :=
    if s.position = 0 then
      if z < -entryZ then
        (1, s.trades ++ [⟨TradeAction.enterLong, z, cur.p1, cur.p2⟩])
      else if entryZ < z then
        (-1, s.trades ++ [⟨TradeAction.enterShort, z, cur.p1, cur.p2⟩])
      else (s.position, s.trades)
    else if |z| ≤ exitZ then
      (0, s.trades ++
        [⟨if s.position = 1 then TradeAction.exitLong else TradeAction.exitShort,
          z, cur.p1, cur.p2⟩])
    else (s.position, s.trades)
  let pos := posTrades.1
  let r1 := (cur.p1 - prev.p1) / prev.p1
  let r2 := (cur.p2 - prev.p2) / prev.p2
  let dayReturn :=
    if pos = 1 then r1 - hedgeRatio * r2
    else if pos = -1 then -(r1 - hedgeRatio * r2)
    else 0
  let tv := s.totalValue * (1 + dayReturn * (1/2))
  { position := pos
    totalValue := tv
    trades := posTrades.2
    returns := s.returns ++ [dayReturn]
    equity := s.equity ++ [⟨tv, pos, z⟩] }

/-- The whole loop: fold `btStep` over the `(current, prev)` pairs
`(fullData[1], fullData[0]), (fullData[2], fullData[1]), ...`. -/
def btLoop (hedgeRatio entryZ exitZ : ℚ) (fullData : List ZBar) : BtState :=
  ((fullData.drop 1).zip fullData).foldl (btStep hedgeRatio entryZ exitZ) btInit

/-- part_004 lines 111-116: `dailyReturns = returns.filter(r => r !== 0)`,
then `avgReturn / returnStd * sqrt(252)` with no guard; an empty filtered
list makes the mean `0/0 = NaN`, and a zero standard deviation makes the
quotient `±Infinity` (or `NaN`), both modelled as `none`. -/
def sharpe004 (sqrtA : ℚ → ℚ) (returns : List ℚ) : Option ℚ :=
  let dailyReturns := returns.filter (fun r => r != 0)
  match jsMean dailyReturns with
  | none => none
  | some avg =>
    let returnStd := sqrtA (varOf dailyReturns avg)
    (jsDiv avg returnStd).map (fun q => q * sqrtA 252)

/-- part_004 lines 118-125: running peak starting at `cash = 100000` and the
largest relative drawdown `(peak - value) / peak` over the equity values. -/
def mdd004Go : ℚ → ℚ → List ℚ → ℚ
  | _, maxDd, [] => maxDd
  | peak, maxDd, v :: rest =>
    let peakNew := if peak < v then v else peak
    let dd := (peakNew - v) / peakNew
    mdd004Go peakNew (if maxDd < dd then dd else maxDd) rest

/-- Result record of part_004's `runBacktest` (fields in the `results`
object; dates and the UI-only `parameters` echo are dropped). -/
structure BtResults where
  totalReturn : ℚ
  sharpeRatio : Option ℚ
  maxDrawdown : ℚ
  numTrades : ℕ
  winRate : ℚ
  equity : List EquityPoint
  trades : List TradeRec
deriving DecidableEq

/-- part_004's `runBacktest`: the simulation loop, then the summary where
`winRate = 0.6 + Math.random() * 0.3` (the draw is the argument `rnd`),
`equity.slice(-252)` and `trades.slice(-20)`. -/
def runBacktest (sqrtA : ℚ → ℚ) (fullData : List ZBar)
    (hedgeRatio entryZ exitZ rnd : ℚ) : BtResults :=
  let st := btLoop hedgeRatio entryZ exitZ fullData
  let totalReturn := (st.totalValue - 100000) / 100000
  { totalReturn := (jsRound (totalReturn * 10000) : ℚ) / 100
    sharpeRatio := (sharpe004 sqrtA st.returns).map (fun q => round2 q)
    maxDrawdown := (jsRound (mdd004Go 100000 0 (st.equity.map (fun p => p.value)) * 10000) : ℚ) / 100
    numTrades := st.trades.length
    winRate := 3/5 + rnd * (3/10)
    equity := st.equity.drop (st.equity.length - 252)
    trades := st.trades.drop (st.trades.length - 20) }

/-- The full pipeline the app wires together: the CointegrationTest.tsx
test produces `fullData` and the (rounded) hedge ratio, which part_004's
`runBacktest` consumes.  `rndP` is the p-value draw, `rndW` the win-rate
draw. -/
def runPipeline (sqrtA : ℚ → ℚ) (data : List Bar)
    (entryZ exitZ rndP rndW : ℚ) : CointTsxResults × BtResults :=
  let c := runCointegrationTsx sqrtA data rndP
  (c, runBacktest sqrtA c.fullData c.hedgeRatio entryZ exitZ rndW)

/-! ## Maximum drawdown utility (part_001 lines 7-14) -/

/-- The loop body of `computeMaxDrawdown`: `max` starts at `-Infinity`
(modelled as `none`, since `Math.max(-Infinity, v) = v`), `maxDd` at 0;
each step does `max = Math.max(max, v); maxDd = Math.max(maxDd, max - v)`. -/
def mddGo : Option ℚ → ℚ → List ℚ → ℚ
  | _, maxDd, [] => maxDd
  | m, maxDd, v :: rest =>
    let mNew := match m with
      | none => v
      | some mv => max mv v
    mddGo (some mNew) (max maxDd (mNew - v)) rest

/-- part_001's `computeMaxDrawdown`. -/
def computeMaxDrawdown (equityCurve : List ℚ) : ℚ := mddGo none 0 equityCurve

/-- Maximum of a list (`0` for the empty list); used to phrase the
running-maximum specifications below. -/
def listMax (l : List ℚ) : ℚ := l.foldl max (l.headD 0)

/-- Modelled from the spec: the largest peak-to-trough percentage decline
relative to the running maximum,
`max over i of (runningMax i - v i) / runningMax i` (0 for the empty
curve), written from the spec's words for comparison with
`computeMaxDrawdown`. -/
def maxDrawdownPctSpec (equityCurve : List ℚ) : ℚ :=
  ((List.range equityCurve.length).map (fun i =>
    (listMax (equityCurve.take (i + 1)) - equityCurve.getD i 0) /
      listMax (equityCurve.take (i + 1)))).foldl max 0

/-- The largest peak-to-trough absolute decline relative to the running
maximum, `max over i of (runningMax i - v i)` (and at least 0); this is the
indexed specification that `computeMaxDrawdown` actually implements. -/
def maxDrawdownAbsSpec (equityCurve : List ℚ) : ℚ :=
  ((List.range equityCurve.length).map (fun i =>
    listMax (equityCurve.take (i + 1)) - equityCurve.getD i 0)).foldl max 0

/-! ## Sharpe ratio, BacktestEngine.tsx variant (lines 110-118) -/

/-- BacktestEngine.tsx lines 111-113: percentage day returns of the equity
values, `(value_i / value_{i-1} - 1) * 100` for `i ≥ 1` (the `i === 0`
placeholder is dropped by `.slice(1)`).  Exact division; callers interested
in float faithfulness restrict to curves of non-zero values. -/
def retsTsx (vals : List ℚ) : List ℚ :=
  ((vals.drop 1).zip vals).map (fun p => (p.1 / p.2 - 1) * 100)

/-- BacktestEngine.tsx lines 116-118: mean and volatility of the day
returns and `sharpeRatio = volatility > 0 ? (avgReturn / volatility) *
Math.sqrt(252) : 0`.  An empty return list makes the mean and volatility
`NaN`; `NaN > 0` is false in JavaScript, so the guard still yields `0`. -/
def sharpeTsx (sqrtA : ℚ → ℚ) (vals : List ℚ) : Option ℚ :=
  let rets := retsTsx vals
  match jsMean rets with
  | none => some 0
  | some avg =>
    let volatility := sqrtA (varOf rets avg)
    if 0 < volatility then (jsDiv avg volatility).map (fun q => q * sqrtA 252)
    else some 0

/-! ## `backtestStrategy` (src/logic/backtest.ts lines 1-8) -/

/-- The running cumulative sum `equityCurve = stratReturns.map(r => equity += r)`
starting from the accumulator value `acc`. -/
def cumsum : ℚ → List ℚ → List ℚ
  | _, [] => []
  | acc, r :: rest => (acc + r) :: cumsum (acc + r) rest

/-- `backtestStrategy(prices, signals)`: simple daily returns of `prices`,
weighted by `signals[i] || 0` (an out-of-range or zero signal contributes
0), the running cumulative sum as the equity curve, and the final
accumulator as `pnl`.  Returns `(pnl, returns, equityCurve)`. -/
def backtestStrategy (prices signals : List ℚ) : ℚ × List ℚ × List ℚ :=
  let returns := ((prices.drop 1).zip prices).map (fun p => (p.1 - p.2) / p.2)
  let stratReturns :=
    (List.range returns.length).map (fun i => returns.getD i 0 * signals.getD i 0)
  let equityCurve := cumsum 0 stratReturns
  let pnl := stratReturns.foldl (fun a b => a + b) 0
  (pnl, stratReturns, equityCurve)

/-- A concrete square root used to instantiate witnesses: `0` on
non-positive inputs, `1` otherwise.  It satisfies the sign hypotheses the
theorems place on the abstract square root. -/
def sqrtStub (q : ℚ) : ℚ := if q ≤ 0 then 0 else 1

/-! ## Helper lemmas -/

theorem sum_zip_mul_comm : ∀ (a b : List ℚ),
    ((a.zip b).map (fun p => p.1 * p.2)).sum = ((b.zip a).map (fun p => p.1 * p.2)).sum := by
  intro a
  induction a with
  | nil => intro b; cases b <;> simp
  | cons x xs ih =>
    intro b
    cases b with
    | nil => simp
    | cons y ys => simp [ih ys, mul_comm]

/-! ## Claim C5 -/

/-- C5: for aligned (equal-length) price lists, the estimated hedge ratio
equals the closed-form OLS slope
`β = (nΣxy − ΣxΣy) / (nΣx² − (Σx)²)` with `x` the second instrument's
prices and `y` the first instrument's prices. -/
theorem c5_hedge_ratio_is_ols_slope (pA pB : List ℚ) (h : pA.length = pB.length) :
    hedgeRatioOf pA pB = olsSlopeSpec pB pA := by
  unfold hedgeRatioOf olsSlopeSpec
  rw [sum_zip_mul_comm pA pB, h]
  ring_nf
  simp [pow_two, mul_comm]

/-- Witness for C5 at concrete lists `[1, 2]` and `[1, 3]`. -/
theorem c5_hedge_ratio_is_ols_slope_witness :
    ([1, 2] : List ℚ).length = ([1, 3] : List ℚ).length ∧
    hedgeRatioOf [1, 2] [1, 3] = olsSlopeSpec [1, 3] [1, 2] :=
  ⟨by decide, c5_hedge_ratio_is_ols_slope [1, 2] [1, 3] (by decide)⟩

/-! ## Claim C4 -/

/-- C4 counterexample: on the concrete one-row input the generated series
carries the number `0` — not a NaN sentinel — at bar 0, which lies before
the 30-bar window is full; this falsifies the claim that every such bar
carries `NaN` and not the value 0. -/
theorem c4_counterexample :
    ((mkDataWithSpread sqrtStub [⟨2, 1⟩] 1).getD 0 ⟨0, 0, 0, 0⟩).zscore = 0 := by
  norm_num [mkDataWithSpread, zscoreAt, clipZ, List.range_succ, List.range_zero]

/-- C4 (amended): with the source's fixed window of 30 bars, every bar with
index `i < 29` carries the z-score value `0` (a zero placeholder, not a NaN
sentinel), and the generated series has one entry per input row. -/
theorem c4_leading_zscores_are_zero (sqrtA : ℚ → ℚ) (data : List Bar) (hr : ℚ)
    (i : ℕ) (hi : i < 29) (hlen : i < data.length) :
    ((mkDataWithSpread sqrtA data hr).getD i ⟨0, 0, 0, 0⟩).zscore = 0 ∧
    (mkDataWithSpread sqrtA data hr).length = data.length := by
  refine ⟨?_, by simp [mkDataWithSpread]⟩
  unfold mkDataWithSpread
  rw [List.getD_eq_getElem?_getD, List.getElem?_map, List.getElem?_range hlen]
  have h29 : ¬ (29 ≤ i) := by omega
  simp [zscoreAt, h29, clipZ]

/-- Witness for C4 (amended) at a concrete one-row input and bar 0. -/
theorem c4_leading_zscores_are_zero_witness :
    ((0 : ℕ) < 29 ∧ (0 : ℕ) < ([⟨3, 1⟩] : List Bar).length) ∧
    ((mkDataWithSpread sqrtStub [⟨3, 1⟩] 1).getD 0 ⟨0, 0, 0, 0⟩).zscore = 0 ∧
    (mkDataWithSpread sqrtStub [⟨3, 1⟩] 1).length = ([⟨3, 1⟩] : List Bar).length :=
  ⟨⟨by decide, by decide⟩,
    c4_leading_zscores_are_zero sqrtStub [⟨3, 1⟩] 1 0 (by decide) (by decide)⟩

/-! ## Claim C6 -/

/-- C6: at every bar at or past the rolling window, the rolling variance is
non-negative; whenever the rolling standard deviation is exactly 0 the
z-score is exactly 0, and whenever it is non-zero it is positive and the
z-score equals `(spread[i] - rolling mean) / rolling std` — so the division
branch is never taken with a zero (or negative) denominator. -/
theorem c6_zscore_zero_std_guard (sqrtA : ℚ → ℚ) (spreads : List ℚ) (i : ℕ)
    (hnn : ∀ q, 0 ≤ q → 0 ≤ sqrtA q) (hi : 29 ≤ i) :
    0 ≤ rollingVar spreads i ∧
    (rollingStd sqrtA spreads i = 0 → zscoreAt sqrtA spreads i = 0) ∧
    (rollingStd sqrtA spreads i ≠ 0 →
      0 < rollingStd sqrtA spreads i ∧
      zscoreAt sqrtA spreads i =
        (spreads.getD i 0 - rollingMean spreads i) / rollingStd sqrtA spreads i) := by
  have hvar : 0 ≤ rollingVar spreads i := by
    unfold rollingVar
    apply div_nonneg
    · apply List.sum_nonneg
      intro x hx
      simp only [List.mem_map] at hx
      obtain ⟨y, _, rfl⟩ := hx
      exact sq_nonneg _
    · norm_num
  have hstd : 0 ≤ rollingStd sqrtA spreads i := hnn _ hvar
  refine ⟨hvar, ?_, ?_⟩
  · intro h0
    unfold zscoreAt zscoreRawAt
    rw [if_pos hi]
    simp [h0]
  · intro hne
    have hpos : 0 < rollingStd sqrtA spreads i := lt_of_le_of_ne hstd (Ne.symm hne)
    refine ⟨hpos, ?_⟩
    unfold zscoreAt zscoreRawAt
    rw [if_pos hi, if_pos hpos]

/-- Witness for C6 on a constant 30-bar spread window (rolling std 0). -/
theorem c6_zscore_zero_std_guard_witness :
    rollingStd sqrtStub (List.replicate 30 1) 29 = 0 ∧
    zscoreAt sqrtStub (List.replicate 30 1) 29 = 0 := by
  have hstd : rollingStd sqrtStub (List.replicate 30 (1 : ℚ)) 29 = 0 := by
    norm_num [rollingStd, rollingVar, rollingMean, rollingWindow, sqrtStub,
      List.sum_replicate, List.map_replicate, List.take_replicate]
  exact ⟨hstd,
    (c6_zscore_zero_std_guard sqrtStub (List.replicate 30 1) 29
      (fun q hq => by unfold sqrtStub; split <;> norm_num) (by norm_num)).2.1 hstd⟩

/-! ## Backtest loop lemmas -/

theorem btStep_equity_shape (h e x : ℚ) (s : BtState) (b : ZBar × ZBar) :
    (btStep h e x s b).equity =
      s.equity ++ [⟨(btStep h e x s b).totalValue, (btStep h e x s b).position,
        b.1.zscore⟩] := rfl

theorem btStep_position_cases (h e x : ℚ) (s : BtState) (b : ZBar × ZBar)
    (hs : s.position = 0 ∨ s.position = 1 ∨ s.position = -1) :
    (btStep h e x s b).position = 0 ∨ (btStep h e x s b).position = 1 ∨
      (btStep h e x s b).position = -1 := by
  unfold btStep
  dsimp only
  split_ifs <;> simp_all

theorem btLoop_inv_aux (h e x : ℚ) :
    ∀ (l : List (ZBar × ZBar)) (s : BtState),
      (s.position = 0 ∨ s.position = 1 ∨ s.position = -1) →
      (∀ pt ∈ s.equity, pt.position = 0 ∨ pt.position = 1 ∨ pt.position = -1) →
      ∀ pt ∈ (l.foldl (btStep h e x) s).equity,
        pt.position = 0 ∨ pt.position = 1 ∨ pt.position = -1 := by
  intro l
  induction l with
  | nil => intro s _ he; simpa using he
  | cons b rest ih =>
    intro s hs he
    rw [List.foldl_cons]
    apply ih
    · exact btStep_position_cases h e x s b hs
    · intro pt hpt
      rw [btStep_equity_shape] at hpt
      rcases List.mem_append.mp hpt with hmem | hmem
      · exact he pt hmem
      · have hpt2 : pt.position = (btStep h e x s b).position := by
          rcases List.mem_singleton.mp hmem with rfl
          rfl
        rw [hpt2]
        exact btStep_position_cases h e x s b hs

theorem btFold_equity_length (h e x : ℚ) :
    ∀ (l : List (ZBar × ZBar)) (s : BtState),
      ((l.foldl (btStep h e x) s).equity).length = s.equity.length + l.length := by
  intro l
  induction l with
  | nil => intro s; simp
  | cons b rest ih =>
    intro s
    rw [List.foldl_cons, ih, btStep_equity_shape]
    simp
    omega

/-! ## Claim C2 -/

/-- An example open-position state used by the C2 witness. -/
def sOpen : BtState :=
  { position := 1, totalValue := 100000, trades := [], returns := [], equity := [] }

/-- An example `(current, prev)` bar pair whose current z-score `-2` triggers
the long-entry condition at `entryThreshold = 1`. -/
def bEntry : ZBar × ZBar := (⟨1, 1, 0, -2⟩, ⟨1, 1, 0, 0⟩)

/-- C2: every equity point of a backtest run carries a position that is one
of flat (0), long spread (1) or short spread (-1); and when a position is
already open, a bar satisfying an entry condition never records an entry
and never stacks a second position — the step either keeps the position and
trade log unchanged or closes the position with a single exit record. -/
theorem c2_single_position_entry_noop (h e x : ℚ) (fullData : List ZBar)
    (s : BtState) (b : ZBar × ZBar) (hopen : s.position ≠ 0)
    (hentry : b.1.zscore < -e ∨ e < b.1.zscore) :
    (∀ pt ∈ (btLoop h e x fullData).equity,
      pt.position = 0 ∨ pt.position = 1 ∨ pt.position = -1) ∧
    ((btStep h e x s b).position = s.position ∨ (btStep h e x s b).position = 0) ∧
    ((btStep h e x s b).trades = s.trades ∨
      ∃ t, (btStep h e x s b).trades = s.trades ++ [t] ∧
        (t.action = TradeAction.exitLong ∨ t.action = TradeAction.exitShort)) := by
  refine ⟨?_, ?_, ?_⟩
  · exact btLoop_inv_aux h e x _ btInit (by simp [btInit]) (by simp [btInit])
  · unfold btStep
    dsimp only
    split_ifs <;> simp_all
  · unfold btStep
    dsimp only
    rw [if_neg hopen]
    by_cases hexit : |b.1.zscore| ≤ x
    · rw [if_pos hexit]
      right
      refine ⟨_, rfl, ?_⟩
      split_ifs <;> simp
    · rw [if_neg hexit]
      left
      rfl

set_option maxRecDepth 8000 in
/-- Witness for C2: an open long position and a bar whose z-score `-2`
satisfies the long-entry condition at thresholds `entry = 1`, `exit = 1/2`. -/
theorem c2_single_position_entry_noop_witness :
    (sOpen.position ≠ 0 ∧ (bEntry.1.zscore < -(1 : ℚ) ∨ (1 : ℚ) < bEntry.1.zscore)) ∧
    (∀ pt ∈ (btLoop 1 1 (1/2) [⟨1, 1, 0, -2⟩, ⟨1, 1, 0, 0⟩]).equity,
      pt.position = 0 ∨ pt.position = 1 ∨ pt.position = -1) ∧
    ((btStep 1 1 (1/2) sOpen bEntry).position = sOpen.position ∨
      (btStep 1 1 (1/2) sOpen bEntry).position = 0) ∧
    ((btStep 1 1 (1/2) sOpen bEntry).trades = sOpen.trades ∨
      ∃ t, (btStep 1 1 (1/2) sOpen bEntry).trades = sOpen.trades ++ [t] ∧
        (t.action = TradeAction.exitLong ∨ t.action = TradeAction.exitShort)) :=
  ⟨⟨by norm_num [sOpen], by norm_num [bEntry]⟩,
    c2_single_position_entry_noop 1 1 (1/2) [⟨1, 1, 0, -2⟩, ⟨1, 1, 0, 0⟩] sOpen bEntry
      (by norm_num [sOpen]) (by norm_num [bEntry])⟩

/-! ## Claim C3 -/

/-- C3 counterexample: with `exitThreshold = 1 ≥ entryThreshold = 1/2` (the
claim's invalid example), `runBacktest` raises no error and still produces
equity points — the simulation runs, so the configuration does not fail
fast and the claim that no EquityPoint is produced is false. -/
theorem c3_counterexample :
    (runBacktest sqrtStub [⟨1, 1, 0, 0⟩, ⟨2, 3, 0, 0⟩, ⟨3, 2, 0, 0⟩]
      1 (1/2) 1 0).equity ≠ [] := by
  norm_num [runBacktest, btLoop, btStep, btInit]
  exact List.cons_ne_nil _ _

/-- C3 (amended): neither `runBacktest` variant validates the threshold
ordering; for every configuration — including `exitThreshold ≥
entryThreshold` — the simulation runs to completion, recording one equity
point per bar after the first (`fullData.length - 1` points, of which the
result keeps the last 252). -/
theorem c3_no_threshold_validation (sqrtA : ℚ → ℚ) (fullData : List ZBar)
    (hr entryZ exitZ rnd : ℚ) :
    (btLoop hr entryZ exitZ fullData).equity.length = fullData.length - 1 ∧
    (runBacktest sqrtA fullData hr entryZ exitZ rnd).equity.length =
      min (fullData.length - 1) 252 := by
  have hlen : (btLoop hr entryZ exitZ fullData).equity.length = fullData.length - 1 := by
    unfold btLoop
    rw [btFold_equity_length]
    simp [btInit]
  refine ⟨hlen, ?_⟩
  simp only [runBacktest]
  rw [List.length_drop, hlen]
  omega

/-! ## Claim C9 -/

/-- C9: on a bar that starts flat and triggers no entry condition, the
portfolio value is unchanged and the recorded equity point carries the
previous portfolio value (and a flat position). -/
theorem c9_flat_preserves_value (h e x : ℚ) (s : BtState) (b : ZBar × ZBar)
    (hflat : s.position = 0) (hnoLong : ¬ b.1.zscore < -e)
    (hnoShort : ¬ e < b.1.zscore) :
    (btStep h e x s b).totalValue = s.totalValue ∧
    (btStep h e x s b).equity = s.equity ++ [⟨s.totalValue, 0, b.1.zscore⟩] := by
  unfold btStep
  dsimp only
  rw [if_pos hflat, if_neg hnoLong, if_neg hnoShort]
  simp [hflat]

/-- Witness for C9: the initial flat state and a bar with z-score 0 at
thresholds `entry = 1`, `exit = 0`. -/
theorem c9_flat_preserves_value_witness :
    btInit.position = 0 ∧
    (btStep 1 1 0 btInit (⟨1, 1, 0, 0⟩, ⟨1, 1, 0, 0⟩)).totalValue = btInit.totalValue ∧
    (btStep 1 1 0 btInit (⟨1, 1, 0, 0⟩, ⟨1, 1, 0, 0⟩)).equity =
      btInit.equity ++ [⟨btInit.totalValue, 0, (0 : ℚ)⟩] :=
  ⟨rfl, c9_flat_preserves_value 1 1 0 btInit (⟨1, 1, 0, 0⟩, ⟨1, 1, 0, 0⟩)
    rfl (by norm_num) (by norm_num)⟩

/-! ## Claim C10 -/

theorem cumsum_length : ∀ (l : List ℚ) (acc : ℚ), (cumsum acc l).length = l.length := by
  intro l
  induction l with
  | nil => intro acc; rfl
  | cons r rest ih => intro acc; simp [cumsum, ih]

theorem cumsum_getD : ∀ (l : List ℚ) (acc : ℚ) (i : ℕ), i < l.length →
    (cumsum acc l).getD i 0 = acc + (l.take (i + 1)).sum := by
  intro l
  induction l with
  | nil => intro acc i h; simp at h
  | cons r rest ih =>
    intro acc i h
    cases i with
    | zero => simp [cumsum]
    | succ j =>
      have hj : j < rest.length := by simpa using h
      rw [show cumsum acc (r :: rest) = (acc + r) :: cumsum (acc + r) rest from rfl,
        List.getD_cons_succ, ih (acc + r) j hj, List.take_succ_cons, List.sum_cons]
      ring

theorem foldl_add_eq_sum : ∀ (l : List ℚ) (a : ℚ), l.foldl (fun u v => u + v) a = a + l.sum := by
  intro l
  induction l with
  | nil => intro a; simp
  | cons r rest ih => intro a; rw [List.foldl_cons, ih]; simp; ring

theorem backtestStrategy_returns_length (prices signals : List ℚ) :
    (backtestStrategy prices signals).2.1.length = prices.length - 1 := by
  simp [backtestStrategy, List.length_zip]

theorem backtestStrategy_equity_length (prices signals : List ℚ) :
    (backtestStrategy prices signals).2.2.length = prices.length - 1 := by
  simp [backtestStrategy, cumsum_length, List.length_zip]

/-- C10: for a non-empty price list, `backtestStrategy` returns a weighted
return list and an equity curve of length `n - 1`; the i-th weighted return
is the simple daily return times `signals[i]` (missing signals count as 0);
the equity curve is the running cumulative sum of the weighted returns; and
`pnl` is their total sum — which is the final equity value when `n ≥ 2` and
`0` when `n = 1`. -/
theorem c10_backtest_strategy (prices signals : List ℚ) (hn : 1 ≤ prices.length) :
    (backtestStrategy prices signals).2.1.length = prices.length - 1 ∧
    (backtestStrategy prices signals).2.2.length = prices.length - 1 ∧
    (∀ i, i < prices.length - 1 →
      (backtestStrategy prices signals).2.1.getD i 0 =
        (prices.getD (i + 1) 0 - prices.getD i 0) / prices.getD i 0 *
          signals.getD i 0) ∧
    (∀ i, i < prices.length - 1 →
      (backtestStrategy prices signals).2.2.getD i 0 =
        ((backtestStrategy prices signals).2.1.take (i + 1)).sum) ∧
    (backtestStrategy prices signals).1 = (backtestStrategy prices signals).2.1.sum ∧
    (2 ≤ prices.length →
      (backtestStrategy prices signals).1 =
        (backtestStrategy prices signals).2.2.getD (prices.length - 2) 0) ∧
    (prices.length = 1 → (backtestStrategy prices signals).1 = 0) := by
  have hrl := backtestStrategy_returns_length prices signals
  have hsum : (backtestStrategy prices signals).1 = (backtestStrategy prices signals).2.1.sum := by
    simp only [backtestStrategy]
    rw [foldl_add_eq_sum]
    ring
  have hgetD : ∀ i, i < prices.length - 1 →
      (backtestStrategy prices signals).2.1.getD i 0 =
        (prices.getD (i + 1) 0 - prices.getD i 0) / prices.getD i 0 *
          signals.getD i 0 := by
    intro i hi
    have hzlen : ((prices.drop 1).zip prices).length = prices.length - 1 := by
      simp [List.length_zip]
    have hmlen : i < (((prices.drop 1).zip prices).map
        (fun p => (p.1 - p.2) / p.2)).length := by
      simp [hzlen]; omega
    have hrange : i < (List.range (((prices.drop 1).zip prices).map
        (fun p => (p.1 - p.2) / p.2)).length).length := by
      simpa using hmlen
    simp only [backtestStrategy]
    rw [List.getD_eq_getElem _ _ (by simpa using hrange), List.getElem_map,
      List.getElem_range]
    congr 1
    rw [List.getD_eq_getElem _ _ hmlen, List.getElem_map, List.getElem_zip]
    have hzi2 : i < (prices.drop 1).length := by
      rw [List.length_drop]; omega
    have hii : i < prices.length := by omega
    rw [← List.getD_eq_getElem (prices.drop 1) 0 hzi2,
      ← List.getD_eq_getElem prices 0 hii]
    have hdrop : (prices.drop 1).getD i 0 = prices.getD (i + 1) 0 := by
      rw [List.getD_eq_getElem?_getD, List.getD_eq_getElem?_getD, List.getElem?_drop,
        Nat.add_comm]
    rw [hdrop]
  have hcum : ∀ i, i < prices.length - 1 →
      (backtestStrategy prices signals).2.2.getD i 0 =
        ((backtestStrategy prices signals).2.1.take (i + 1)).sum := by
    intro i hi
    have hilen : i < (backtestStrategy prices signals).2.1.length := by
      rw [hrl]; exact hi
    simp only [backtestStrategy] at hilen ⊢
    rw [cumsum_getD _ _ _ hilen]
    ring
  refine ⟨hrl, backtestStrategy_equity_length prices signals, hgetD, hcum, hsum, ?_, ?_⟩
  · intro h2
    have hlast : prices.length - 2 < prices.length - 1 := by omega
    rw [hcum _ hlast, hsum]
    have : prices.length - 2 + 1 = (backtestStrategy prices signals).2.1.length := by
      rw [hrl]; omega
    rw [this, List.take_length]
  · intro h1
    rw [hsum]
    have : (backtestStrategy prices signals).2.1.length = 0 := by rw [hrl, h1]
    rw [List.length_eq_zero.mp this]
    rfl

/-- Witness for C10 on `prices = [1, 2, 4]`, `signals = [1]` (the second
signal is missing, hence treated as 0). -/
theorem c10_backtest_strategy_witness :
    1 ≤ ([1, 2, 4] : List ℚ).length ∧
    (backtestStrategy [1, 2, 4] [1]).2.1.length = 2 ∧
    (backtestStrategy [1, 2, 4] [1]).1 = (backtestStrategy [1, 2, 4] [1]).2.1.sum :=
  ⟨by decide,
    (c10_backtest_strategy [1, 2, 4] [1] (by decide)).1,
    (c10_backtest_strategy [1, 2, 4] [1] (by decide)).2.2.2.2.1⟩

/-! ## Claim C8 -/

/-- The decline `runningMax - value` recorded at each step of part_001's
loop, starting from the running maximum seed `m`. -/
def declinesFrom (m : ℚ) : List ℚ → List ℚ
  | [] => []
  | v :: rest => (max m v - v) :: declinesFrom (max m v) rest

/-- Running maximum of a list starting from the seed `m`. -/
def listMaxSeed (m : ℚ) (l : List ℚ) : ℚ := l.foldl max m

theorem mddGo_some_eq_foldl : ∀ (l : List ℚ) (m dd : ℚ),
    mddGo (some m) dd l = (declinesFrom m l).foldl max dd := by
  intro l
  induction l with
  | nil => intro m dd; rfl
  | cons v rest ih =>
    intro m dd
    rw [show mddGo (some m) dd (v :: rest) =
        mddGo (some (max m v)) (max dd (max m v - v)) rest from rfl,
      ih, show declinesFrom m (v :: rest) =
        (max m v - v) :: declinesFrom (max m v) rest from rfl,
      List.foldl_cons]

theorem declinesFrom_eq_spec : ∀ (l : List ℚ) (m : ℚ),
    declinesFrom m l = (List.range l.length).map
      (fun i => listMaxSeed m (l.take (i + 1)) - l.getD i 0) := by
  intro l
  induction l with
  | nil => intro m; rfl
  | cons v rest ih =>
    intro m
    rw [show declinesFrom m (v :: rest) =
        (max m v - v) :: declinesFrom (max m v) rest from rfl, ih (max m v)]
    rw [show (v :: rest).length = rest.length + 1 from rfl,
      List.range_succ_eq_map, List.map_cons, List.map_map]
    congr 1

theorem le_foldl_max : ∀ (l : List ℚ) (b : ℚ), b ≤ l.foldl max b := by
  intro l
  induction l with
  | nil => intro b; simp
  | cons a rest ih =>
    intro b
    rw [List.foldl_cons]
    exact le_trans (le_max_left b a) (ih (max b a))

/-- C8 counterexample: on the equity curve `[4, 1]` the code reports the
absolute decline `3`, while the largest peak-to-trough percentage decline
relative to the running maximum is `3/4`; and on `[1, -1]` the reported
value `2` exceeds the peak value `1`, so neither "is the percentage
decline" nor "at most 100% of the peak" holds. -/
theorem c8_counterexample :
    computeMaxDrawdown [4, 1] = 3 ∧ maxDrawdownPctSpec [4, 1] = 3/4 ∧
    (3 : ℚ) ≠ 3/4 ∧
    computeMaxDrawdown [1, -1] = 2 ∧ listMax [1, -1] = 1 ∧ ¬ (2 : ℚ) ≤ 1 := by
  refine ⟨?_, ?_, by norm_num, ?_, ?_, by norm_num⟩
  · show mddGo none 0 [4, 1] = 3
    rw [show mddGo none 0 [(4 : ℚ), 1] = mddGo (some 4) (max 0 (4 - 4)) [1] from rfl,
      show mddGo (some (4 : ℚ)) (max 0 (4 - 4)) [1] =
        mddGo (some (max 4 1)) (max (max 0 (4 - 4)) (max 4 1 - 1)) [] from rfl]
    show max (max 0 (4 - 4)) (max 4 1 - 1) = 3
    norm_num [max_def]
  · norm_num [maxDrawdownPctSpec, listMax, List.range_succ, max_def]
  · show mddGo none 0 [1, -1] = 2
    rw [show mddGo none 0 [(1 : ℚ), -1] = mddGo (some 1) (max 0 (1 - 1)) [-1] from rfl,
      show mddGo (some (1 : ℚ)) (max 0 (1 - 1)) [-1] =
        mddGo (some (max 1 (-1))) (max (max 0 (1 - 1)) (max 1 (-1) - (-1))) [] from rfl]
    show max (max 0 (1 - 1)) (max 1 (-1) - (-1)) = 2
    norm_num [max_def]
  · norm_num [listMax, max_def]

/-- C8 (amended): `computeMaxDrawdown` returns the largest peak-to-trough
absolute (not percentage) decline relative to the running maximum of the
curve, and this value is always non-negative; it is not bounded by the peak
value. -/
theorem c8_max_drawdown_abs (equityCurve : List ℚ) :
    computeMaxDrawdown equityCurve = maxDrawdownAbsSpec equityCurve ∧
    0 ≤ computeMaxDrawdown equityCurve := by
  have heq : computeMaxDrawdown equityCurve = maxDrawdownAbsSpec equityCurve := by
    cases equityCurve with
    | nil => rfl
    | cons v rest =>
      show mddGo none 0 (v :: rest) = _
      rw [show mddGo none 0 (v :: rest) = mddGo (some v) (max 0 (v - v)) rest from rfl]
      rw [show max 0 (v - v) = max 0 0 by rw [sub_self], max_self,
        mddGo_some_eq_foldl, declinesFrom_eq_spec]
      unfold maxDrawdownAbsSpec
      rw [show (v :: rest).length = rest.length + 1 from rfl,
        List.range_succ_eq_map, List.map_cons, List.map_map, List.foldl_cons]
      have h0 : listMax ((v :: rest).take (0 + 1)) - (v :: rest).getD 0 0 = 0 := by
        simp [listMax]
      rw [h0, max_self]
      congr 1
      apply List.map_congr_left
      intro i _
      simp only [Function.comp_apply, listMaxSeed, List.take_succ_cons,
        List.getD_cons_succ, listMax, List.headD_cons]
      rw [List.foldl_cons, max_self]
  refine ⟨heq, ?_⟩
  rw [heq]
  unfold maxDrawdownAbsSpec
  exact le_foldl_max _ 0

/-! ## Claim C7 -/

/-- C7 counterexample: a three-bar run whose z-scores never trigger an
entry leaves every per-bar return at 0; part_004 then filters all returns
away, takes the mean of an empty list (`0/0 = NaN`) and reports a
non-finite Sharpe ratio even though the equity curve has two points —
there is no `std = 0 ↦ 0` fallback in this variant. -/
theorem c7_counterexample :
    (runBacktest sqrtStub [⟨1, 1, 0, 0⟩, ⟨1, 1, 0, 0⟩, ⟨1, 1, 0, 0⟩]
      1 1 0 0).sharpeRatio = none ∧
    2 ≤ (btLoop 1 1 0 [⟨1, 1, 0, 0⟩, ⟨1, 1, 0, 0⟩, ⟨1, 1, 0, 0⟩]).equity.length := by
  constructor
  · norm_num [runBacktest, btLoop, btStep, btInit, sharpe004, jsMean, jsDiv, varOf]
  · norm_num [btLoop, btStep, btInit]

/-- C7 (amended): the BacktestEngine.tsx variant always reports a finite
Sharpe ratio, and reports exactly 0 when the volatility of the equity-curve
day returns is 0 (including the degenerate empty-returns case); the
part_004 variant instead reports a non-finite value whenever its filtered
non-zero daily returns are empty. -/
theorem c7_sharpe_finite_tsx (sqrtA : ℚ → ℚ) (vals : List ℚ) :
    (∃ v, sharpeTsx sqrtA vals = some v) ∧
    (∀ avg, jsMean (retsTsx vals) = some avg →
      sqrtA (varOf (retsTsx vals) avg) = 0 → sharpeTsx sqrtA vals = some 0) ∧
    (∀ returns : List ℚ, returns.filter (fun r => r != 0) = [] →
      sharpe004 sqrtA returns = none) := by
  refine ⟨?_, ?_, ?_⟩
  · rcases hm : jsMean (retsTsx vals) with _ | avg
    · exact ⟨0, by simp only [sharpeTsx, hm]⟩
    · by_cases hv : 0 < sqrtA (varOf (retsTsx vals) avg)
      · refine ⟨avg / sqrtA (varOf (retsTsx vals) avg) * sqrtA 252, ?_⟩
        simp only [sharpeTsx, hm]
        rw [if_pos hv]
        simp only [jsDiv]
        rw [if_neg (ne_of_gt hv)]
        rfl
      · exact ⟨0, by simp only [sharpeTsx, hm]; rw [if_neg hv]⟩
  · intro avg hm h0
    simp only [sharpeTsx, hm]
    rw [h0]
    simp
  · intro returns hf
    unfold sharpe004
    rw [hf]
    simp [jsMean, jsDiv]

/-- Witness for C7 (amended): a flat two-point equity curve for the tsx
variant, and the all-zero return list for the part_004 variant. -/
theorem c7_sharpe_finite_tsx_witness :
    (∃ v, sharpeTsx sqrtStub [100000, 100000] = some v) ∧
    (([0] : List ℚ).filter (fun r => r != 0) = [] ∧
      sharpe004 sqrtStub [0] = none) :=
  ⟨(c7_sharpe_finite_tsx sqrtStub [100000, 100000]).1,
    ⟨by simp, (c7_sharpe_finite_tsx sqrtStub [100000, 100000]).2.2 [0] (by simp)⟩⟩

/-! ## Claim C1 -/

theorem jsRound_eq (q : ℚ) (z : ℤ) (h1 : (z : ℚ) ≤ q + 1/2) (h2 : q + 1/2 < z + 1) :
    jsRound q = z := by
  unfold jsRound
  exact Int.floor_eq_iff.mpr ⟨h1, by exact_mod_cast h2⟩

/-- C1 counterexample: on identical price data and identical configuration,
two runs of the pipeline with different `Math.random()` draws report
different p-values (0 versus 0.08) and different win rates (0.6 versus
0.9) — so the pipeline output is not a function of the inputs and
configuration alone, and the claimed run-to-run identity of the p-value
and of the summary statistics (in particular `winRate`) fails. -/
theorem c1_counterexample :
    (runPipeline sqrtStub [⟨1, 1⟩, ⟨2, 3⟩] 1 0 0 0).1.pValue = 0 ∧
    (runPipeline sqrtStub [⟨1, 1⟩, ⟨2, 3⟩] 1 0 1 0).1.pValue = 2/25 ∧
    (0 : ℚ) ≠ 2/25 ∧
    (runPipeline sqrtStub [⟨1, 1⟩, ⟨2, 3⟩] 1 0 0 0).2.winRate = 3/5 ∧
    (runPipeline sqrtStub [⟨1, 1⟩, ⟨2, 3⟩] 1 0 0 1).2.winRate = 9/10 ∧
    (3/5 : ℚ) ≠ 9/10 := by
  have h0 : jsRound ((0 : ℚ) * (2/25) * 10000) = 0 :=
    jsRound_eq _ 0 (by norm_num) (by norm_num)
  have h800 : jsRound ((1 : ℚ) * (2/25) * 10000) = 800 :=
    jsRound_eq _ 800 (by norm_num) (by norm_num)
  refine ⟨?_, ?_, by norm_num, ?_, ?_, by norm_num⟩
  · simp only [runPipeline, runCointegrationTsx, round4]
    rw [h0]
    norm_num
  · simp only [runPipeline, runCointegrationTsx, round4]
    rw [h800]
    norm_num
  · simp only [runPipeline, runBacktest]
    norm_num
  · simp only [runPipeline, runBacktest]
    norm_num

/-- C1 (amended): with the `Math.random()` draws made explicit inputs, the
pipeline is a pure function of data, configuration and draws; every output
component except the mocked statistics is independent of the draws — the
hedge ratio, spread statistics, z-score series, trade list, equity curve,
total return, Sharpe ratio, max drawdown and trade count coincide across
runs with different draws, while the p-value, the cointegration flag, the
ADF statistic and part_004's win rate are functions of the draws. -/
theorem c1_deterministic_given_draws (sqrtA : ℚ → ℚ) (data : List Bar)
    (entryZ exitZ rP rP2 rW rW2 s1 s2 t1 t2 : ℚ) :
    (runPipeline sqrtA data entryZ exitZ rP rW).1.hedgeRatio =
      (runPipeline sqrtA data entryZ exitZ rP2 rW2).1.hedgeRatio ∧
    (runPipeline sqrtA data entryZ exitZ rP rW).1.spreadMean =
      (runPipeline sqrtA data entryZ exitZ rP2 rW2).1.spreadMean ∧
    (runPipeline sqrtA data entryZ exitZ rP rW).1.spreadStd =
      (runPipeline sqrtA data entryZ exitZ rP2 rW2).1.spreadStd ∧
    (runPipeline sqrtA data entryZ exitZ rP rW).1.fullData =
      (runPipeline sqrtA data entryZ exitZ rP2 rW2).1.fullData ∧
    (runPipeline sqrtA data entryZ exitZ rP rW).2.totalReturn =
      (runPipeline sqrtA data entryZ exitZ rP2 rW2).2.totalReturn ∧
    (runPipeline sqrtA data entryZ exitZ rP rW).2.sharpeRatio =
      (runPipeline sqrtA data entryZ exitZ rP2 rW2).2.sharpeRatio ∧
    (runPipeline sqrtA data entryZ exitZ rP rW).2.maxDrawdown =
      (runPipeline sqrtA data entryZ exitZ rP2 rW2).2.maxDrawdown ∧
    (runPipeline sqrtA data entryZ exitZ rP rW).2.numTrades =
      (runPipeline sqrtA data entryZ exitZ rP2 rW2).2.numTrades ∧
    (runPipeline sqrtA data entryZ exitZ rP rW).2.equity =
      (runPipeline sqrtA data entryZ exitZ rP2 rW2).2.equity ∧
    (runPipeline sqrtA data entryZ exitZ rP rW).2.trades =
      (runPipeline sqrtA data entryZ exitZ rP2 rW2).2.trades ∧
    (runCointegrationTest sqrtA data s1 s2).map
      (fun c => (c.hedgeRatio, c.spreadMean, c.spreadStd, c.dataWithSpread)) =
    (runCointegrationTest sqrtA data t1 t2).map
      (fun c => (c.hedgeRatio, c.spreadMean, c.spreadStd, c.dataWithSpread)) := by
  refine ⟨?_, ?_, ?_, ?_, ?_, ?_, ?_, ?_, ?_, ?_, ?_⟩ <;>
    simp only [runPipeline, runCointegrationTsx, runBacktest, runCointegrationTest]
  by_cases hlen : data.length < 50
  · simp [hlen]
  · simp [hlen]
